import Mathlib

/-!
Verification of the STR repository: a shallow embedding of the constrained
portfolio optimizer (`src/optimize_portfolio.py`), the backtest engine
(`src/backtest.py`) and the orchestration layer (`src/STRRunner.py`),
together with proofs of the testable properties stated in the spec.

Machine reals are modelled by `ℚ` (exact arithmetic; floating-point
tolerances become exact statements), except where the source takes a
square root (`pandas` standard deviation), where `ℝ` is used.
-/

namespace STR

/-! ## Optimizer: `optimize_portfolio` (src/optimize_portfolio.py)

The mixed-integer program built by `optimize_portfolio` has, per asset
`i` of the filtered universe (`n` assets after `dropna`):
a nonnegative long weight `longs i`, a nonnegative short weight
`shorts i`, and a boolean indicator `z i`.  `weights = longs - shorts`.
The solver (`problem.solve`) is external; its contract is that a solve
that ends with status `OPTIMAL` returned an assignment satisfying every
constraint of the problem.  `FeasibleAssignment` below is exactly the
constraint list the code registers. -/

/-- Per-universe data consumed by `optimize_portfolio` after the
`dropna` filter: the beta column `BETA_RAW_OVERRIDABLE`, the sector
column `GICS_SECTOR_NAME`, and the configuration scalars
`beta_target_range`, `sector_exposure_target`, `max_weight`. -/
structure OptProblem (n : ℕ) (S : Type) where
  beta : Fin n → ℚ
  sector : Fin n → S
  betaLo : ℚ
  betaHi : ℚ
  secLo : ℚ
  secHi : ℚ
  maxWeight : ℚ

/-- Values of the decision variables `longs`, `shorts`, `z` returned by
the solver. -/
structure Assignment (n : ℕ) where
  longs : Fin n → ℚ
  shorts : Fin n → ℚ
  z : Fin n → Bool

variable {n : ℕ} {S : Type}

/-- Net weights: `weights = longs - shorts` in the code; the returned
column `Optimized Weight` is `longs.value - shorts.value`. -/
def Assignment.weights (a : Assignment n) : Fin n → ℚ :=
  fun i => a.longs i - a.shorts i

/-- Numeric value of a boolean solver variable. -/
def zval (b : Bool) : ℚ := if b then 1 else 0

/-- Net beta exposure: `data["BETA_RAW_OVERRIDABLE"].values @ weights`. -/
def betaExposure (P : OptProblem n S) (a : Assignment n) : ℚ :=
  ∑ i, P.beta i * a.weights i

/-- Sector exposure as the code computes it from one-hot dummies:
`sector_dummies[sector].values @ weights`. -/
def sectorExposure [DecidableEq S] (P : OptProblem n S) (a : Assignment n) (s : S) : ℚ :=
  ∑ i, (if P.sector i = s then (1 : ℚ) else 0) * a.weights i

/-- Net sector exposure as the spec words it: the sum of the signed
weights of the sector's members. -/
def sectorNetWeight [DecidableEq S] (P : OptProblem n S) (a : Assignment n) (s : S) : ℚ :=
  ∑ i ∈ Finset.univ.filter (fun i => P.sector i = s), a.weights i

/-- Constraint set registered by `optimize_portfolio`:
nonnegativity of the `longs`/`shorts` variables, `cp.sum(longs) == 1`,
`cp.sum(shorts) == 1`, `longs <= max_weight * z`,
`shorts <= max_weight * (1 - z)`, the beta-exposure range, and one
exposure range per distinct sector present in the universe
(`pd.get_dummies` produces one column per distinct value, so the
sectors constrained are exactly `{P.sector j | j}`). -/
def FeasibleAssignment [DecidableEq S] (P : OptProblem n S) (a : Assignment n) : Prop :=
  (∀ i, 0 ≤ a.longs i) ∧
  (∀ i, 0 ≤ a.shorts i) ∧
  (∑ i, a.longs i) = 1 ∧
  (∑ i, a.shorts i) = 1 ∧
  (∀ i, a.longs i ≤ P.maxWeight * zval (a.z i)) ∧
  (∀ i, a.shorts i ≤ P.maxWeight * (1 - zval (a.z i))) ∧
  P.betaLo ≤ betaExposure P a ∧ betaExposure P a ≤ P.betaHi ∧
  (∀ j : Fin n, P.secLo ≤ sectorExposure P a (P.sector j) ∧
    sectorExposure P a (P.sector j) ≤ P.secHi)

/-- Objective of the program: `weights @ data["Z_SCORE"].values`. -/
def objectiveValue (a : Assignment n) (zscore : Fin n → ℚ) : ℚ :=
  ∑ i, a.weights i * zscore i


/-- Concrete two-asset universe used to witness the optimizer theorems:
both betas `0`, both assets in sector `0`, ranges `(-1/100, 1/100)`,
`max_weight = 1`. -/
def P2 : OptProblem 2 ℕ :=
  { beta := fun _ => 0
    sector := fun _ => 0
    betaLo := -1/100
    betaHi := 1/100
    secLo := -1/100
    secHi := 1/100
    maxWeight := 1 }

/-- Concrete solver assignment for `P2`: asset `0` fully long, asset `1`
fully short. -/
def a2 : Assignment 2 :=
  { longs := fun i => if i = 0 then 1 else 0
    shorts := fun i => if i = 0 then 0 else 1
    z := fun i => i == 0 }

/-! ## Signal standardization in `optimize_portfolio`

`data["SIGNAL"]` is standardized by
`data['Z_SCORE'] = (data['SIGNAL'] - mean_signal) / std_signal` with
`mean_signal = data['SIGNAL'].mean()` and
`std_signal = data['SIGNAL'].std()`.  `pandas.Series.std` defaults to
`ddof = 1` (sample standard deviation). -/

/-- Arithmetic mean of the signal column: `data['SIGNAL'].mean()`. -/
def mean (xs : List ℚ) : ℚ := xs.sum / xs.length

/-- Square of `data['SIGNAL'].std()`: the pandas default is `ddof = 1`,
so the divisor is `n - 1`. -/
def sampleVar (xs : List ℚ) : ℚ :=
  (xs.map (fun x => (x - mean xs) ^ 2)).sum / ((xs.length : ℚ) - 1)

/-- Population variance (divisor `n`), as the spec's definition of
standard deviation would require. -/
def popVar (xs : List ℚ) : ℚ :=
  (xs.map (fun x => (x - mean xs) ^ 2)).sum / (xs.length : ℚ)

/-- Value of `std_signal` in the code: `data['SIGNAL'].std()`. -/
noncomputable def std_signal (xs : List ℚ) : ℝ :=
  Real.sqrt ((sampleVar xs : ℚ) : ℝ)

/-- Z-score as the code computes it:
`(data['SIGNAL'] - mean_signal) / std_signal`. -/
noncomputable def zScore (xs : List ℚ) (x : ℚ) : ℝ :=
  ((x - mean xs : ℚ) : ℝ) / std_signal xs

/-- Z-score as the spec words it (for comparison with `zScore`): value
minus population mean, divided by population standard deviation. -/
noncomputable def zScoreSpec (xs : List ℚ) (x : ℚ) : ℝ :=
  ((x - mean xs : ℚ) : ℝ) / Real.sqrt ((popVar xs : ℚ) : ℝ)

/-! ## Post-solve check in `optimize_portfolio`

After `problem.solve(...)` the code checks
`if problem.status != cp.OPTIMAL: raise ValueError(f"Optimization
failed. Status: {problem.status}")` and otherwise returns the weight
table `longs.value - shorts.value` together with `problem.value`. -/

/-- Status string `cp.OPTIMAL` of cvxpy. -/
def OPTIMAL : String := "optimal"

/-- Values handed back by `problem.solve`: the reported status, the
values of the decision variables, and `problem.value`. -/
structure SolverOutput (n : ℕ) where
  status : String
  longs : Fin n → ℚ
  shorts : Fin n → ℚ
  value : ℚ

/-- The tail of `optimize_portfolio` after the solver call: raise
(modelled as `Except.error` carrying the message with the solver
status) when the status is not `cp.OPTIMAL`, otherwise return the
weight vector `longs.value - shorts.value` and the objective value. -/
def optimizePortfolioPost (out : SolverOutput n) : Except String ((Fin n → ℚ) × ℚ) :=
  if out.status ≠ OPTIMAL then
    Except.error ("Optimization failed. Status: " ++ out.status)
  else
    Except.ok (fun i => out.longs i - out.shorts i, out.value)

/-- Concrete non-optimal solver outcome. -/
def outInfeasible : SolverOutput 1 :=
  { status := "infeasible", longs := fun _ => 0, shorts := fun _ => 0, value := 0 }

/-! ## Backtester: `backtest_strategy` (src/backtest.py)

Dates are modelled as `ℤ`, the asset universe as `Fin nA`.
`daily_returns` becomes a total function `returns : ℤ → Fin nA → ℚ`
together with its (sorted, duplicate-free) date index `index : List ℤ`;
`optimized_portfolios` becomes `portfolios : ℤ → Option (Fin nA → ℚ)`
(the dict lookup `third_to_last in optimized_portfolios`); a schedule
row carries its `Third-to-Last Friday` and `Second-to-Last Friday`
columns as a pair.  `daily_returns.loc[a:b]` is label slicing on a
sorted index: the rows with `a ≤ t ∧ t ≤ b` (inclusive ends), whether
or not `a`, `b`, or any interior date is present in the index. -/

/-- Daily dot product
`(holding_period_returns * portfolio_weights).sum(axis=1)` at a single
date. -/
def dotRow {nA : ℕ} (w : Fin nA → ℚ) (r : Fin nA → ℚ) : ℚ := ∑ i, w i * r i

/-- One iteration of the schedule loop in `backtest_strategy`: skip the
row when its entry date is absent from `optimized_portfolios`, else
overwrite the accumulated series on the inclusive window with the dot
products of that row's fixed weight vector. -/
def applyScheduleRow {nA : ℕ} (portfolios : ℤ → Option (Fin nA → ℚ))
    (returns : ℤ → Fin nA → ℚ) (acc : ℤ → ℚ) (row : ℤ × ℤ) : ℤ → ℚ :=
  match portfolios row.1 with
  | none => acc
  | some w => fun t => if row.1 ≤ t ∧ t ≤ row.2 then dotRow w (returns t) else acc t

/-- Value of the `Portfolio Returns` column after the schedule loop,
starting from the all-zero initialization
`strategy_returns["Portfolio Returns"] = 0.0`. -/
def portfolioReturns {nA : ℕ} (schedule : List (ℤ × ℤ))
    (portfolios : ℤ → Option (Fin nA → ℚ)) (returns : ℤ → Fin nA → ℚ) : ℤ → ℚ :=
  schedule.foldl (applyScheduleRow portfolios returns) (fun _ => 0)

/-- The returned `Portfolio Returns` series: one entry per date of the
`daily_returns` index. -/
def backtestSeries {nA : ℕ} (schedule : List (ℤ × ℤ))
    (portfolios : ℤ → Option (Fin nA → ℚ)) (returns : ℤ → Fin nA → ℚ)
    (index : List ℤ) : List (ℤ × ℚ) :=
  index.map (fun t => (t, portfolioReturns schedule portfolios returns t))

/-- Running product with seed `acc`, as `Series.cumprod` computes it. -/
def cumprodAux (acc : ℚ) : List ℚ → List ℚ
  | [] => []
  | x :: xs => (acc * x) :: cumprodAux (acc * x) xs

/-- The returned `Cumulative Returns` column:
`(1 + strategy_returns['Portfolio Returns']).cumprod()`. -/
def cumulativeReturns {nA : ℕ} (schedule : List (ℤ × ℤ))
    (portfolios : ℤ → Option (Fin nA → ℚ)) (returns : ℤ → Fin nA → ℚ)
    (index : List ℤ) : List ℚ :=
  cumprodAux 1 (index.map (fun t => 1 + portfolioReturns schedule portfolios returns t))

/-! ## Orchestration: `STRRunner.create_portfolios` and `grid_search`

`create_portfolios` loops over the keys of `constituent_data` (the
third-to-last Thursdays), maps each key to its `Third-to-Last Friday`
through the schedule (modelled by `dateOf`), and on a successful
`optimize_portfolio` call assigns `self.optimized_portfolios[date]`;
an exception is caught, printed, and the loop continues, so the dict
entry for that date is left as it was.  The dict is a field of the
runner and is never cleared, so a second `create_portfolios` call (as
issued per parameter combination by `grid_search`) mutates the same
dict; `run_backtest` then reads `self.optimized_portfolios`. -/

/-- Effect of one `create_portfolios` call on the
`optimized_portfolios` dict (modelled as `ℤ → Option W`): `opt` is the
per-key outcome of `optimize_portfolio` under the current parameter
combination. -/
def createPortfolios {W : Type} (opt : ℤ → Except String (W × ℚ)) (keys : List ℤ)
    (dateOf : ℤ → ℤ) (m : ℤ → Option W) : ℤ → Option W :=
  keys.foldl (fun acc key =>
    match opt key with
    | Except.ok res => fun d => if d = dateOf key then some res.1 else acc d
    | Except.error _ => acc) m

/-! ## Concrete data for the witnesses -/

/-- One-asset weight vector `1/2`. -/
def wEx : Fin 1 → ℚ := fun _ => 1/2

/-- One-asset weight vector `1`. -/
def wEx2 : Fin 1 → ℚ := fun _ => 1

/-- Weight dict holding `wEx` at date `0` only. -/
def portfoliosEx : ℤ → Option (Fin 1 → ℚ) := fun d => if d = 0 then some wEx else none

/-- Weight dict holding `wEx` at date `0` and `wEx2` at date `3`. -/
def portfoliosEx2 : ℤ → Option (Fin 1 → ℚ) :=
  fun d => if d = 0 then some wEx else if d = 3 then some wEx2 else none

/-- Weight dict holding `wEx` at date `1` only. -/
def portfoliosC9 : ℤ → Option (Fin 1 → ℚ) := fun d => if d = 1 then some wEx else none

/-- Daily returns: the single asset returns `t` at date `t`. -/
def returnsEx : ℤ → Fin 1 → ℚ := fun t _ => (t : ℚ)

/-- Per-key optimizer outcome that always succeeds with `wEx`. -/
def optOk : ℤ → Except String ((Fin 1 → ℚ) × ℚ) := fun _ => Except.ok (wEx, 0)

/-- Per-key optimizer outcome that always fails. -/
def optFail : ℤ → Except String ((Fin 1 → ℚ) × ℚ) := fun _ => Except.error "infeasible"

lemma long_short_exclusive [DecidableEq S] {P : OptProblem n S} {a : Assignment n}
    (h : FeasibleAssignment P a) (i : Fin n) :
    a.longs i = 0 ∨ a.shorts i = 0 := by
  obtain ⟨hl, hs, -, -, hlz, hsz, -⟩ := h
  cases hz : a.z i with
  | false =>
    left
    have := hlz i
    rw [hz] at this
    simp [zval] at this
    exact le_antisymm this (hl i)
  | true =>
    right
    have := hsz i
    rw [hz] at this
    simp [zval] at this
    exact le_antisymm this (hs i)

lemma weight_pos_eq_long [DecidableEq S] {P : OptProblem n S} {a : Assignment n}
    (h : FeasibleAssignment P a) (i : Fin n) (hpos : 0 < a.weights i) :
    a.shorts i = 0 ∧ a.weights i = a.longs i := by
  rcases long_short_exclusive h i with h0 | h0
  · exfalso
    have hs := h.2.1 i
    have : a.weights i ≤ 0 := by
      simp [Assignment.weights, h0]
      exact hs
    linarith
  · exact ⟨h0, by simp [Assignment.weights, h0]⟩

lemma weight_nonpos_long_zero [DecidableEq S] {P : OptProblem n S} {a : Assignment n}
    (h : FeasibleAssignment P a) (i : Fin n) (hnp : ¬ 0 < a.weights i) :
    a.longs i = 0 := by
  rcases long_short_exclusive h i with h0 | h0
  · exact h0
  · have hl := h.1 i
    have hw : a.weights i = a.longs i := by simp [Assignment.weights, h0]
    push_neg at hnp
    rw [hw] at hnp
    linarith

lemma weight_neg_eq_short [DecidableEq S] {P : OptProblem n S} {a : Assignment n}
    (h : FeasibleAssignment P a) (i : Fin n) (hneg : a.weights i < 0) :
    a.longs i = 0 ∧ a.weights i = -a.shorts i := by
  rcases long_short_exclusive h i with h0 | h0
  · exact ⟨h0, by simp [Assignment.weights, h0]⟩
  · exfalso
    have hl := h.1 i
    have : 0 ≤ a.weights i := by
      simp [Assignment.weights, h0]
      exact hl
    linarith

lemma weight_nonneg_short_zero [DecidableEq S] {P : OptProblem n S} {a : Assignment n}
    (h : FeasibleAssignment P a) (i : Fin n) (hnn : ¬ a.weights i < 0) :
    a.shorts i = 0 := by
  rcases long_short_exclusive h i with h0 | h0
  · have hs := h.2.1 i
    have hw : a.weights i = -a.shorts i := by simp [Assignment.weights, h0]
    rw [hw] at hnn
    push_neg at hnn
    linarith
  · exact h0

/-- C1: for every universe on which `optimize_portfolio` returns
successfully (the solver handed back an assignment satisfying the
registered constraints, which is what status `OPTIMAL` certifies), the
strictly positive entries of the returned weight vector sum to `1` and
the strictly negative entries sum to `-1` (exactly, in the exact-
arithmetic model; hence within any floating-point tolerance). -/
theorem optimize_books_unit_exposure [DecidableEq S] {P : OptProblem n S}
    {a : Assignment n} (h : FeasibleAssignment P a) :
    (∑ i ∈ Finset.univ.filter (fun i => 0 < a.weights i), a.weights i) = 1 ∧
    (∑ i ∈ Finset.univ.filter (fun i => a.weights i < 0), a.weights i) = -1 := by
  constructor
  · have hstep : (∑ i ∈ Finset.univ.filter (fun i => 0 < a.weights i), a.weights i)
        = ∑ i ∈ Finset.univ.filter (fun i => 0 < a.weights i), a.longs i := by
      refine Finset.sum_congr rfl ?_
      intro i hi
      rw [Finset.mem_filter] at hi
      exact (weight_pos_eq_long h i hi.2).2
    rw [hstep]
    have hext : (∑ i ∈ Finset.univ.filter (fun i => 0 < a.weights i), a.longs i)
        = ∑ i, a.longs i := by
      refine Finset.sum_subset (Finset.filter_subset _ _) ?_
      intro i _ hi
      rw [Finset.mem_filter] at hi
      push_neg at hi
      exact weight_nonpos_long_zero h i (not_lt.mpr (hi (Finset.mem_univ i)))
    rw [hext]
    exact h.2.2.1
  · have hstep : (∑ i ∈ Finset.univ.filter (fun i => a.weights i < 0), a.weights i)
        = ∑ i ∈ Finset.univ.filter (fun i => a.weights i < 0), -a.shorts i := by
      refine Finset.sum_congr rfl ?_
      intro i hi
      rw [Finset.mem_filter] at hi
      exact (weight_neg_eq_short h i hi.2).2
    rw [hstep]
    have hext : (∑ i ∈ Finset.univ.filter (fun i => a.weights i < 0), -a.shorts i)
        = ∑ i, -a.shorts i := by
      refine Finset.sum_subset (Finset.filter_subset _ _) ?_
      intro i _ hi
      rw [Finset.mem_filter] at hi
      push_neg at hi
      rw [weight_nonneg_short_zero h i (not_lt.mpr (hi (Finset.mem_univ i)))]
      ring
    rw [hext, Finset.sum_neg_distrib, h.2.2.2.1]

lemma maxWeight_pos [DecidableEq S] {P : OptProblem n S} {a : Assignment n}
    (h : FeasibleAssignment P a) : 0 < P.maxWeight := by
  obtain ⟨hl, -, hsum, -, hlz, -⟩ := h
  have hex : ∃ i, 0 < a.longs i := by
    by_contra hno
    push_neg at hno
    have : (∑ i, a.longs i) ≤ 0 := Finset.sum_nonpos (fun i _ => hno i)
    rw [hsum] at this
    linarith
  obtain ⟨i, hi⟩ := hex
  have hb := hlz i
  cases hz : a.z i with
  | false =>
    rw [hz] at hb
    simp [zval] at hb
    linarith
  | true =>
    rw [hz] at hb
    simp [zval] at hb
    linarith

/-- C2: for every successful `optimize_portfolio` call (solver-returned
assignment satisfying the registered constraints), every returned
weight has absolute value at most `max_weight`, and no asset has a
strictly positive long weight and a strictly positive short weight at
the same time. -/
theorem optimize_weight_cap_and_exclusivity [DecidableEq S] {P : OptProblem n S}
    {a : Assignment n} (h : FeasibleAssignment P a) :
    (∀ i, |a.weights i| ≤ P.maxWeight) ∧
    (∀ i, ¬ (0 < a.longs i ∧ 0 < a.shorts i)) := by
  have hmw := maxWeight_pos h
  constructor
  · intro i
    rcases long_short_exclusive h i with h0 | h0
    · have hw : a.weights i = -a.shorts i := by simp [Assignment.weights, h0]
      have hs0 := h.2.1 i
      have hb := h.2.2.2.2.2.1 i
      rw [abs_le]
      cases hz : a.z i with
      | false =>
        rw [hz] at hb
        simp [zval] at hb
        constructor <;> [rw [hw]; rw [hw]] <;> linarith
      | true =>
        rw [hz] at hb
        simp [zval] at hb
        have : a.shorts i = 0 := le_antisymm hb hs0
        rw [hw, this]
        constructor <;> linarith
    · have hw : a.weights i = a.longs i := by simp [Assignment.weights, h0]
      have hl0 := h.1 i
      have hb := h.2.2.2.2.1 i
      rw [abs_le]
      cases hz : a.z i with
      | false =>
        rw [hz] at hb
        simp [zval] at hb
        have : a.longs i = 0 := le_antisymm hb hl0
        rw [hw, this]
        constructor <;> linarith
      | true =>
        rw [hz] at hb
        simp [zval] at hb
        constructor <;> [rw [hw]; rw [hw]] <;> linarith
  · intro i hcontra
    rcases long_short_exclusive h i with h0 | h0
    · rw [h0] at hcontra
      exact lt_irrefl 0 hcontra.1
    · rw [h0] at hcontra
      exact lt_irrefl 0 hcontra.2

lemma sectorNetWeight_eq_sectorExposure [DecidableEq S] (P : OptProblem n S)
    (a : Assignment n) (s : S) :
    sectorNetWeight P a s = sectorExposure P a s := by
  unfold sectorNetWeight sectorExposure
  rw [Finset.sum_filter]
  refine Finset.sum_congr rfl ?_
  intro i _
  by_cases hs : P.sector i = s <;> simp [hs]

/-- C3: for every successful `optimize_portfolio` call (solver-returned
assignment satisfying the registered constraints), the net beta
exposure lies within the inclusive `beta_range` bounds and, for every
distinct sector present in the universe, the net sector exposure (sum
of the signed weights of the sector's members) lies within the
inclusive `sector_range` bounds. -/
theorem optimize_exposures_within_bounds [DecidableEq S] {P : OptProblem n S}
    {a : Assignment n} (h : FeasibleAssignment P a) :
    (P.betaLo ≤ betaExposure P a ∧ betaExposure P a ≤ P.betaHi) ∧
    (∀ j : Fin n, P.secLo ≤ sectorNetWeight P a (P.sector j) ∧
      sectorNetWeight P a (P.sector j) ≤ P.secHi) := by
  refine ⟨⟨h.2.2.2.2.2.2.1, h.2.2.2.2.2.2.2.1⟩, ?_⟩
  intro j
  rw [sectorNetWeight_eq_sectorExposure]
  exact h.2.2.2.2.2.2.2.2 j

lemma feasible_P2_a2 : FeasibleAssignment P2 a2 := by
  unfold FeasibleAssignment betaExposure sectorExposure P2 a2 Assignment.weights zval
  norm_num [Fin.sum_univ_two, Fin.forall_fin_two]

/-- Witness for C1 at the concrete instance `P2`, `a2`. -/
theorem optimize_books_unit_exposure_witness :
    FeasibleAssignment P2 a2 ∧
    ((∑ i ∈ Finset.univ.filter (fun i => 0 < a2.weights i), a2.weights i) = 1 ∧
     (∑ i ∈ Finset.univ.filter (fun i => a2.weights i < 0), a2.weights i) = -1) :=
  ⟨feasible_P2_a2, optimize_books_unit_exposure feasible_P2_a2⟩

/-- Witness for C2 at the concrete instance `P2`, `a2`. -/
theorem optimize_weight_cap_and_exclusivity_witness :
    FeasibleAssignment P2 a2 ∧
    ((∀ i, |a2.weights i| ≤ P2.maxWeight) ∧
     (∀ i, ¬ (0 < a2.longs i ∧ 0 < a2.shorts i))) :=
  ⟨feasible_P2_a2, optimize_weight_cap_and_exclusivity feasible_P2_a2⟩

/-- Witness for C3 at the concrete instance `P2`, `a2`. -/
theorem optimize_exposures_within_bounds_witness :
    FeasibleAssignment P2 a2 ∧
    ((P2.betaLo ≤ betaExposure P2 a2 ∧ betaExposure P2 a2 ≤ P2.betaHi) ∧
     (∀ j : Fin 2, P2.secLo ≤ sectorNetWeight P2 a2 (P2.sector j) ∧
       sectorNetWeight P2 a2 (P2.sector j) ≤ P2.secHi)) :=
  ⟨feasible_P2_a2, optimize_exposures_within_bounds feasible_P2_a2⟩

/-! ## Backtester lemmas and theorems -/

lemma applyScheduleRow_not_covering {nA : ℕ} (portfolios : ℤ → Option (Fin nA → ℚ))
    (returns : ℤ → Fin nA → ℚ) (acc : ℤ → ℚ) (e : ℤ × ℤ) (t : ℤ)
    (h : (portfolios e.1).isSome → ¬ (e.1 ≤ t ∧ t ≤ e.2)) :
    applyScheduleRow portfolios returns acc e t = acc t := by
  unfold applyScheduleRow
  cases hp : portfolios e.1 with
  | none => rfl
  | some w =>
    have hnc : ¬ (e.1 ≤ t ∧ t ≤ e.2) := h (by rw [hp]; rfl)
    simp [hnc]

lemma foldl_applyScheduleRow_no_cover {nA : ℕ} (portfolios : ℤ → Option (Fin nA → ℚ))
    (returns : ℤ → Fin nA → ℚ) :
    ∀ (l : List (ℤ × ℤ)) (acc : ℤ → ℚ) (t : ℤ),
      (∀ e ∈ l, (portfolios e.1).isSome → ¬ (e.1 ≤ t ∧ t ≤ e.2)) →
      (l.foldl (applyScheduleRow portfolios returns) acc) t = acc t := by
  intro l
  induction l with
  | nil => intro acc t _; rfl
  | cons e l ih =>
    intro acc t h
    rw [List.foldl_cons]
    rw [ih _ t (fun e' he' => h e' (List.mem_cons_of_mem e he'))]
    exact applyScheduleRow_not_covering portfolios returns acc e t (h e (List.mem_cons_self e l))

lemma portfolioReturns_of_unique_cover {nA : ℕ} (l₁ l₂ : List (ℤ × ℤ)) (e : ℤ × ℤ)
    (w : Fin nA → ℚ) (portfolios : ℤ → Option (Fin nA → ℚ)) (returns : ℤ → Fin nA → ℚ)
    (t : ℤ) (hw : portfolios e.1 = some w) (hta : e.1 ≤ t) (htb : t ≤ e.2)
    (hrest : ∀ e' ∈ l₂, (portfolios e'.1).isSome → ¬ (e'.1 ≤ t ∧ t ≤ e'.2)) :
    portfolioReturns (l₁ ++ e :: l₂) portfolios returns t = dotRow w (returns t) := by
  unfold portfolioReturns
  rw [List.foldl_append, List.foldl_cons]
  rw [foldl_applyScheduleRow_no_cover portfolios returns l₂ _ t hrest]
  unfold applyScheduleRow
  rw [hw]
  simp [hta, htb]

/-- C4: for every input, the daily portfolio-return series is: for each
schedule row whose entry date has a matching weight vector, on each
date of the inclusive `[entry, exit]` window (covered by no other
matched row) the dot product of that row's fixed weight vector with
that date's per-asset returns; rows with no matching weight vector are
skipped; and on every date of the return index covered by no matched
window the portfolio return is exactly `0`. -/
theorem backtest_window_semantics {nA : ℕ} (schedule : List (ℤ × ℤ))
    (portfolios : ℤ → Option (Fin nA → ℚ)) (returns : ℤ → Fin nA → ℚ)
    (index : List ℤ) (t : ℤ) (ht : t ∈ index) :
    ((∀ e ∈ schedule, (portfolios e.1).isSome → ¬ (e.1 ≤ t ∧ t ≤ e.2)) →
      portfolioReturns schedule portfolios returns t = 0) ∧
    (∀ (l₁ l₂ : List (ℤ × ℤ)) (e : ℤ × ℤ) (w : Fin nA → ℚ),
      schedule = l₁ ++ e :: l₂ → portfolios e.1 = some w →
      e.1 ≤ t → t ≤ e.2 →
      (∀ e' ∈ l₁ ++ l₂, (portfolios e'.1).isSome → ¬ (e'.1 ≤ t ∧ t ≤ e'.2)) →
      portfolioReturns schedule portfolios returns t = dotRow w (returns t)) := by
  constructor
  · intro h
    exact foldl_applyScheduleRow_no_cover portfolios returns schedule _ t h
  · intro l₁ l₂ e w hs hw hta htb hrest
    subst hs
    exact portfolioReturns_of_unique_cover l₁ l₂ e w portfolios returns t hw hta htb
      (fun e' he' => hrest e' (List.mem_append_right l₁ he'))

/-- Witness for C4: one-row schedule `[(0, 2)]`, weights present at
date `0`, index `[0, 1, 2, 3]`; date `3` is uncovered and yields `0`,
date `1` is covered and yields the dot product. -/
theorem backtest_window_semantics_witness :
    (3 : ℤ) ∈ ([0, 1, 2, 3] : List ℤ) ∧
    portfolioReturns [((0 : ℤ), (2 : ℤ))] portfoliosEx returnsEx 3 = 0 ∧
    portfolioReturns [((0 : ℤ), (2 : ℤ))] portfoliosEx returnsEx 1 = dotRow wEx (returnsEx 1) := by
  refine ⟨by decide, ?_, ?_⟩
  · exact (backtest_window_semantics [((0 : ℤ), (2 : ℤ))] portfoliosEx returnsEx
      [0, 1, 2, 3] 3 (by decide)).1 (by decide)
  · exact (backtest_window_semantics [((0 : ℤ), (2 : ℤ))] portfoliosEx returnsEx
      [0, 1, 2, 3] 1 (by decide)).2 [] [] ((0 : ℤ), (2 : ℤ)) wEx rfl rfl
      (by decide) (by decide) (by simp)

lemma cumprodAux_length (acc : ℚ) (xs : List ℚ) :
    (cumprodAux acc xs).length = xs.length := by
  induction xs generalizing acc with
  | nil => rfl
  | cons x xs ih => simp [cumprodAux, ih]

lemma cumprodAux_getD (xs : List ℚ) :
    ∀ (acc : ℚ) (k : ℕ), k < xs.length →
      (cumprodAux acc xs).getD k 0 =
        (if k = 0 then acc else (cumprodAux acc xs).getD (k - 1) 0) * xs.getD k 0 := by
  induction xs with
  | nil => intro acc k hk; simp at hk
  | cons x xs ih =>
    intro acc k hk
    match k with
    | 0 => simp [cumprodAux]
    | Nat.succ j =>
      have hj : j < xs.length := by
        simpa using Nat.lt_of_succ_lt_succ hk
      have hstep : (cumprodAux acc (x :: xs)).getD (j + 1) 0
          = (cumprodAux (acc * x) xs).getD j 0 := by
        simp [cumprodAux]
      rw [hstep, ih (acc * x) j hj]
      have hiff : (if j = 0 then acc * x else (cumprodAux (acc * x) xs).getD (j - 1) 0)
          = (cumprodAux acc (x :: xs)).getD (j + 1 - 1) 0 := by
        match j with
        | 0 => simp [cumprodAux]
        | Nat.succ m => simp [cumprodAux]
      rw [hiff]
      simp

/-- C5: the cumulative-return series satisfies
`cumulative[k] = cumulative[k-1] * (1 + portfolio_return[k])` at every
position `k` of the date index, with the value before the first date
treated as `1`. -/
theorem cumulative_returns_recurrence {nA : ℕ} (schedule : List (ℤ × ℤ))
    (portfolios : ℤ → Option (Fin nA → ℚ)) (returns : ℤ → Fin nA → ℚ)
    (index : List ℤ) (k : ℕ) (hk : k < index.length) :
    (cumulativeReturns schedule portfolios returns index).getD k 0 =
      (if k = 0 then 1
       else (cumulativeReturns schedule portfolios returns index).getD (k - 1) 0) *
        (1 + portfolioReturns schedule portfolios returns (index.getD k 0)) := by
  unfold cumulativeReturns
  have hlen : k < (index.map
      (fun t => 1 + portfolioReturns schedule portfolios returns t)).length := by
    simpa using hk
  rw [cumprodAux_getD _ 1 k hlen]
  congr 1
  rw [List.getD_eq_getElem _ _ hlen, List.getElem_map, List.getD_eq_getElem _ _ hk]

/-- Witness for C5 at a concrete instance: schedule `[(0, 2)]`, weights
at date `0`, index `[0, 1, 2, 3]`, position `k = 1`. -/
theorem cumulative_returns_recurrence_witness :
    (1 < ([0, 1, 2, 3] : List ℤ).length) ∧
    (cumulativeReturns [((0 : ℤ), (2 : ℤ))] portfoliosEx returnsEx [0, 1, 2, 3]).getD 1 0 =
      (cumulativeReturns [((0 : ℤ), (2 : ℤ))] portfoliosEx returnsEx [0, 1, 2, 3]).getD 0 0 *
        (1 + portfolioReturns [((0 : ℤ), (2 : ℤ))] portfoliosEx returnsEx
          (([0, 1, 2, 3] : List ℤ).getD 1 0)) := by
  refine ⟨by decide, ?_⟩
  have h := cumulative_returns_recurrence [((0 : ℤ), (2 : ℤ))] portfoliosEx returnsEx
    [0, 1, 2, 3] 1 (by decide)
  simpa using h

/-- C8: when the schedule contains two rows whose holding windows
overlap (both matched by a weight vector), an overlapping date receives
the return computed from the later-processed row — the one further
along the schedule, which is the chronologically later rebalance when
the schedule is in its usual chronological order — because its write
overwrites the earlier row's value. -/
theorem backtest_overlap_later_entry_wins {nA : ℕ} (schedule l₁ l₂ l₃ : List (ℤ × ℤ))
    (e₁ e₂ : ℤ × ℤ) (w₁ w₂ : Fin nA → ℚ) (portfolios : ℤ → Option (Fin nA → ℚ))
    (returns : ℤ → Fin nA → ℚ) (t : ℤ)
    (hs : schedule = l₁ ++ e₁ :: (l₂ ++ e₂ :: l₃))
    (h1 : portfolios e₁.1 = some w₁) (h2 : portfolios e₂.1 = some w₂)
    (hc1 : e₁.1 ≤ t ∧ t ≤ e₁.2) (hc2 : e₂.1 ≤ t ∧ t ≤ e₂.2)
    (h3 : ∀ e ∈ l₃, (portfolios e.1).isSome → ¬ (e.1 ≤ t ∧ t ≤ e.2)) :
    portfolioReturns schedule portfolios returns t = dotRow w₂ (returns t) := by
  subst hs
  have hre : l₁ ++ e₁ :: (l₂ ++ e₂ :: l₃) = (l₁ ++ e₁ :: l₂) ++ e₂ :: l₃ := by
    simp
  rw [hre]
  exact portfolioReturns_of_unique_cover (l₁ ++ e₁ :: l₂) l₃ e₂ w₂ portfolios returns t
    h2 hc2.1 hc2.2 h3

/-- Witness for C8: rows `(0, 5)` and `(3, 8)` overlap on date `4`;
the value there is the second row's dot product. -/
theorem backtest_overlap_later_entry_wins_witness :
    portfoliosEx2 0 = some wEx ∧ portfoliosEx2 3 = some wEx2 ∧
    portfolioReturns [((0 : ℤ), (5 : ℤ)), ((3 : ℤ), (8 : ℤ))] portfoliosEx2 returnsEx 4 =
      dotRow wEx2 (returnsEx 4) := by
  refine ⟨rfl, rfl, ?_⟩
  exact backtest_overlap_later_entry_wins [((0 : ℤ), (5 : ℤ)), ((3 : ℤ), (8 : ℤ))]
    [] [] [] ((0 : ℤ), (5 : ℤ)) ((3 : ℤ), (8 : ℤ)) wEx wEx2 portfoliosEx2 returnsEx 4
    rfl rfl rfl (by decide) (by decide) (by simp)

/-- Counterexample to C9: with the one-row schedule `[(1, 10)]`, a
matching weight vector at the entry date `1`, and a daily-return index
`[0, 1, 2]` that does not cover the dates `3 .. 10` of the holding
window (date `3` is required by the window and absent), the backtester
raises nothing: it returns a normal series over the covered dates, the
window silently truncated to `{1, 2}`. -/
theorem backtest_fails_loudly_counterexample :
    ((1 : ℤ) ≤ 3 ∧ (3 : ℤ) ≤ 10 ∧ (3 : ℤ) ∉ ([0, 1, 2] : List ℤ)) ∧
    backtestSeries [((1 : ℤ), (10 : ℤ))] portfoliosC9 returnsEx [0, 1, 2] =
      [(0, 0), (1, dotRow wEx (returnsEx 1)), (2, dotRow wEx (returnsEx 2))] := by
  constructor
  · decide
  · simp [backtestSeries, portfolioReturns, applyScheduleRow, portfoliosC9]

/-- C9 amended: when the daily-return table does not cover the full
date range of a matched holding window, `backtest_strategy` does not
fail; it proceeds, and the window is silently truncated to the dates
the return index does cover — each covered date of the window still
receives its dot product in the output series. -/
theorem backtest_truncates_uncovered_window {nA : ℕ} (schedule l₁ l₂ : List (ℤ × ℤ))
    (e : ℤ × ℤ) (w : Fin nA → ℚ) (portfolios : ℤ → Option (Fin nA → ℚ))
    (returns : ℤ → Fin nA → ℚ) (index : List ℤ) (t d : ℤ)
    (hs : schedule = l₁ ++ e :: l₂)
    (hw : portfolios e.1 = some w)
    (hd : e.1 ≤ d ∧ d ≤ e.2 ∧ d ∉ index)
    (ht : t ∈ index) (hta : e.1 ≤ t) (htb : t ≤ e.2)
    (hrest : ∀ e' ∈ l₁ ++ l₂, (portfolios e'.1).isSome → ¬ (e'.1 ≤ t ∧ t ≤ e'.2)) :
    (t, dotRow w (returns t)) ∈ backtestSeries schedule portfolios returns index := by
  subst hs
  have hval : portfolioReturns (l₁ ++ e :: l₂) portfolios returns t = dotRow w (returns t) :=
    portfolioReturns_of_unique_cover l₁ l₂ e w portfolios returns t hw hta htb
      (fun e' he' => hrest e' (List.mem_append_right l₁ he'))
  unfold backtestSeries
  rw [← hval]
  exact List.mem_map_of_mem _ ht

/-- Witness for the amended C9: window `(1, 10)`, index `[0, 1, 2]`
(date `3` required but absent), covered date `t = 2` still appears in
the output with its dot product. -/
theorem backtest_truncates_uncovered_window_witness :
    ((2 : ℤ), dotRow wEx (returnsEx 2)) ∈
      backtestSeries [((1 : ℤ), (10 : ℤ))] portfoliosC9 returnsEx [0, 1, 2] :=
  backtest_truncates_uncovered_window [((1 : ℤ), (10 : ℤ))] [] [] ((1 : ℤ), (10 : ℤ))
    wEx portfoliosC9 returnsEx [0, 1, 2] 2 3 rfl rfl (by decide) (by decide)
    (by decide) (by decide) (by simp)

/-- C6: `optimize_portfolio` raises an error carrying the solver's
reported status if and only if the solver does not report the optimal
status; when the status is optimal it returns the weight vector
`longs.value - shorts.value` — an infeasible solve is never turned
into a zero-weight (or any) result. -/
theorem optimize_raises_iff_not_optimal (out : SolverOutput n) :
    ((∃ msg, optimizePortfolioPost out = Except.error msg) ↔ out.status ≠ OPTIMAL) ∧
    (optimizePortfolioPost out =
        Except.error ("Optimization failed. Status: " ++ out.status) ↔
      out.status ≠ OPTIMAL) ∧
    (out.status = OPTIMAL →
      optimizePortfolioPost out =
        Except.ok (fun i => out.longs i - out.shorts i, out.value)) := by
  unfold optimizePortfolioPost
  by_cases h : out.status = OPTIMAL <;> simp [h]

/-- Witness for C6: a solver status `"infeasible"` produces the error
carrying that status. -/
theorem optimize_raises_iff_not_optimal_witness :
    outInfeasible.status ≠ OPTIMAL ∧
    optimizePortfolioPost outInfeasible =
      Except.error ("Optimization failed. Status: " ++ outInfeasible.status) := by
  have hne : outInfeasible.status ≠ OPTIMAL := by
    simp [outInfeasible, OPTIMAL]
  exact ⟨hne, ((optimize_raises_iff_not_optimal outInfeasible).2.1).mpr hne⟩

/-- Counterexample to C7: on the signal list `[0, 2]` the code's
z-score of `0` is `-1 / sqrt 2` (sample standard deviation, the pandas
`std()` default `ddof = 1`), while the spec's population z-score is
`-1`; the two differ. -/
theorem zscore_standardization_counterexample :
    zScore [0, 2] 0 ≠ zScoreSpec [0, 2] 0 := by
  have hm : mean [0, 2] = 1 := by norm_num [mean]
  have hsv : sampleVar [0, 2] = 2 := by norm_num [sampleVar, mean]
  have hpv : popVar [0, 2] = 1 := by norm_num [popVar, mean]
  unfold zScore zScoreSpec std_signal
  rw [hm, hsv, hpv]
  intro heq
  have h1 : ((2 : ℚ) : ℝ) = 2 := by norm_num
  have h2 : ((1 : ℚ) : ℝ) = 1 := by norm_num
  have h0 : (((0 : ℚ) - 1 : ℚ) : ℝ) = -1 := by push_cast; ring
  rw [h1, h2, h0, Real.sqrt_one] at heq
  have hpos : (0 : ℝ) < Real.sqrt 2 := Real.sqrt_pos.mpr (by norm_num)
  have hsq : Real.sqrt 2 ^ 2 = 2 := Real.sq_sqrt (by norm_num)
  have hne : Real.sqrt 2 ≠ 0 := ne_of_gt hpos
  rw [div_eq_div_iff hne one_ne_zero] at heq
  have h12 : Real.sqrt 2 = 1 := by linarith
  rw [h12] at hsq
  norm_num at hsq

/-- C7 amended: `optimize_portfolio` standardizes the signal using the
population mean and the *sample* standard deviation (`ddof = 1`, the
pandas `std()` default): whenever the sample variance is nonzero,
`Z_SCORE * std_signal = SIGNAL - mean_signal`, where `std_signal` is
the square root of the sample variance. -/
theorem zscore_uses_sample_std (xs : List ℚ) (x : ℚ) (h : 0 < sampleVar xs) :
    zScore xs x * Real.sqrt ((sampleVar xs : ℚ) : ℝ) =
      ((x : ℚ) : ℝ) - ((mean xs : ℚ) : ℝ) := by
  unfold zScore std_signal
  have hpos : (0 : ℝ) < Real.sqrt ((sampleVar xs : ℚ) : ℝ) := by
    refine Real.sqrt_pos.mpr ?_
    exact_mod_cast h
  rw [div_mul_cancel₀ _ (ne_of_gt hpos)]
  push_cast
  ring

/-- Witness for the amended C7 on the signal list `[0, 2]` at `x = 0`. -/
theorem zscore_uses_sample_std_witness :
    0 < sampleVar [0, 2] ∧
    zScore [0, 2] 0 * Real.sqrt ((sampleVar [0, 2] : ℚ) : ℝ) =
      (((0 : ℚ) : ℚ) : ℝ) - ((mean [0, 2] : ℚ) : ℝ) :=
  ⟨by norm_num [sampleVar, mean], zscore_uses_sample_std [0, 2] 0 (by norm_num [sampleVar, mean])⟩

lemma createPortfolios_cons {W : Type} (opt : ℤ → Except String (W × ℚ)) (dateOf : ℤ → ℤ)
    (k : ℤ) (ks : List ℤ) (m : ℤ → Option W) :
    createPortfolios opt (k :: ks) dateOf m =
      createPortfolios opt ks dateOf
        (match opt k with
         | Except.ok res => fun d => if d = dateOf k then some res.1 else m d
         | Except.error _ => m) := rfl

lemma createPortfolios_preserve {W : Type} (opt : ℤ → Except String (W × ℚ))
    (dateOf : ℤ → ℤ) :
    ∀ (keys : List ℤ) (m : ℤ → Option W) (d : ℤ),
      (∀ k ∈ keys, dateOf k = d → ∃ e, opt k = Except.error e) →
      createPortfolios opt keys dateOf m d = m d := by
  intro keys
  induction keys with
  | nil => intro m d _; rfl
  | cons k ks ih =>
    intro m d h
    rw [createPortfolios_cons]
    rw [ih _ d (fun k' hk' => h k' (List.mem_cons_of_mem k hk'))]
    cases hok : opt k with
    | error e => simp
    | ok res =>
      have hd : d ≠ dateOf k := by
        intro hdk
        obtain ⟨e, he⟩ := h k (List.mem_cons_self k ks) hdk.symm
        rw [hok] at he
        exact Except.noConfusion he
      simp [hd]

lemma createPortfolios_sets {W : Type} (opt : ℤ → Except String (W × ℚ))
    (dateOf : ℤ → ℤ) (k₁s k₂s : List ℤ) (k : ℤ) (w : W) (s : ℚ) (m : ℤ → Option W)
    (hok : opt k = Except.ok (w, s))
    (hafter : ∀ k' ∈ k₂s, dateOf k' = dateOf k → ∃ e, opt k' = Except.error e) :
    createPortfolios opt (k₁s ++ k :: k₂s) dateOf m (dateOf k) = some w := by
  have happ : createPortfolios opt (k₁s ++ k :: k₂s) dateOf m =
      createPortfolios opt (k :: k₂s) dateOf (createPortfolios opt k₁s dateOf m) := by
    unfold createPortfolios
    rw [List.foldl_append]
  rw [happ, createPortfolios_cons, hok]
  rw [createPortfolios_preserve opt dateOf k₂s _ (dateOf k) hafter]
  simp

/-- C10: `create_portfolios` only adds or replaces per-date entries of
`self.optimized_portfolios` and never clears it; a per-date
optimization failure (the caught, printed exception) leaves that
date's existing entry unchanged.  Hence during `grid_search`, a
rebalance date that succeeds under the first parameter combination
(`opt₁`) and is infeasible under the second (`opt₂`) silently retains
the weight vector computed under the first, and the subsequent
`run_backtest` consumes that stale vector. -/
theorem create_portfolios_stale_weights {nA : ℕ}
    (opt₁ opt₂ : ℤ → Except String ((Fin nA → ℚ) × ℚ))
    (k₁s k₂s : List ℤ) (k : ℤ) (dateOf : ℤ → ℤ) (m₀ : ℤ → Option (Fin nA → ℚ))
    (w : Fin nA → ℚ) (s : ℚ) (returns : ℤ → Fin nA → ℚ) (t b : ℤ)
    (h1 : opt₁ k = Except.ok (w, s))
    (hafter : ∀ k' ∈ k₂s, dateOf k' = dateOf k → ∃ e, opt₁ k' = Except.error e)
    (h2 : ∀ k' ∈ k₁s ++ k :: k₂s, dateOf k' = dateOf k → ∃ e, opt₂ k' = Except.error e)
    (hcov : dateOf k ≤ t ∧ t ≤ b) :
    createPortfolios opt₂ (k₁s ++ k :: k₂s) dateOf
        (createPortfolios opt₁ (k₁s ++ k :: k₂s) dateOf m₀) (dateOf k) = some w ∧
    portfolioReturns [(dateOf k, b)]
        (createPortfolios opt₂ (k₁s ++ k :: k₂s) dateOf
          (createPortfolios opt₁ (k₁s ++ k :: k₂s) dateOf m₀)) returns t =
      dotRow w (returns t) := by
  have hstale : createPortfolios opt₂ (k₁s ++ k :: k₂s) dateOf
      (createPortfolios opt₁ (k₁s ++ k :: k₂s) dateOf m₀) (dateOf k) = some w := by
    rw [createPortfolios_preserve opt₂ dateOf (k₁s ++ k :: k₂s) _ (dateOf k) h2]
    exact createPortfolios_sets opt₁ dateOf k₁s k₂s k w s m₀ h1 hafter
  refine ⟨hstale, ?_⟩
  have hpr := portfolioReturns_of_unique_cover [] [] (dateOf k, b) w
    (createPortfolios opt₂ (k₁s ++ k :: k₂s) dateOf
      (createPortfolios opt₁ (k₁s ++ k :: k₂s) dateOf m₀)) returns t
    hstale hcov.1 hcov.2 (by simp)
  simpa using hpr

/-- Witness for C10: key `7` (rebalance date `8`), first combination
succeeds with `wEx`, second fails for every key; the stale `wEx` is
still consumed by the backtest at date `9`. -/
theorem create_portfolios_stale_weights_witness :
    createPortfolios optFail [7] (fun x => x + 1)
        (createPortfolios optOk [7] (fun x => x + 1) (fun _ => none)) 8 = some wEx ∧
    portfolioReturns [((8 : ℤ), (12 : ℤ))]
        (createPortfolios optFail [7] (fun x => x + 1)
          (createPortfolios optOk [7] (fun x => x + 1) (fun _ => none))) returnsEx 9 =
      dotRow wEx (returnsEx 9) := by
  have h := create_portfolios_stale_weights optOk optFail [] [] 7 (fun x => x + 1)
    (fun _ => none) wEx 0 returnsEx 9 12 rfl (by simp)
    (by intro k' _ _; exact ⟨"infeasible", rfl⟩) (by decide)
  simpa using h

end STR
